import Mathlib

/-!
Verification development for the cgroup package of rkt
(`common/cgroup/cgroup.go`), a shallow embedding in Lean 4.

Conventions of the embedding:
* File contents read line-by-line by `bufio.Scanner` are modelled as
  `List String` (one element per line, newlines stripped).
* Go maps are modelled either as lookup functions (`String → Option _`)
  for the static literal maps, or as association lists built in
  insertion order for maps constructed by the code.
* `k8s.io/kubernetes/pkg/api/resource.Quantity` is modelled as an exact
  integer count of milli-units (the quantities handled by this package
  are exact at milli precision); `Value` rounds away from zero
  (`inf.RoundUp`) exactly as the vendored resource package does, and
  `MilliValue` is exact.  Values are taken within the int64 range, so
  no wrap-around is modelled.
* Syscalls and file-system effects are modelled by an environment
  (`Env`) answering each request, and every function with effects
  returns the ordered trace of operations it attempted (`List Op`)
  together with an optional error, mirroring Go's `error` results.
* `filepath.Join` is modelled without the final `Clean` pass
  (components are assumed already clean, as they are in this package).
-/

namespace RktCgroup

/-- Split a character list at every occurrence of the separator; the
structural model of `strings.Split` with a one-character separator. -/
def splitChar (sep : Char) : List Char → List (List Char)
  | [] => [[]]
  | c :: r =>
    let rest := splitChar sep r
    if c = sep then [] :: rest
    else
      match rest with
      | t :: ts => (c :: t) :: ts
      | [] => [[c]]

/-- Model of `strings.Split(s, sep)` for a one-character separator. -/
def goSplit (s : String) (sep : Char) : List String :=
  (splitChar sep s.data).map String.mk

/-- Model of `strings.HasPrefix`. -/
def goHasPrefix (s pre : String) : Bool :=
  pre.data.isPrefixOf s.data

/-- Model of a Go `error` value: `syscall.EBUSY`, a plain message
(`fmt.Errorf`), or an `errwrap.Wrap` of a message around an inner error. -/
inductive GoErr where
  | ebusy : GoErr
  | msg (s : String) : GoErr
  | wrap (s : String) (inner : GoErr) : GoErr
deriving DecidableEq, Repr

/-- Model of `github.com/coreos/go-systemd/unit.UnitOption`. -/
structure UnitOption where
  Section : String
  Name : String
  Value : String
deriving DecidableEq, Repr

/-- Model of `unit.NewUnitOption`. -/
def NewUnitOption (sec name value : String) : UnitOption :=
  ⟨sec, name, value⟩

/-- Model of `resource.Quantity`: an exact integer number of
milli-units (millicores for CPU, millibytes for memory). -/
structure Quantity where
  milli : Int
deriving DecidableEq, Repr

/-- Division rounding away from zero, the rounding mode (`inf.RoundUp`)
used by the vendored `resource.Quantity.Value`. -/
def roundAwayDiv (m n : Int) : Int :=
  if 0 ≤ m then (m + n - 1).tdiv n else -((-m + n - 1).tdiv n)

/-- Model of `Quantity.Value()`: the quantity in whole units, rounded
away from zero. -/
def Quantity.Value (q : Quantity) : Int :=
  roundAwayDiv q.milli 1000

/-- Model of `Quantity.MilliValue()`: the quantity in milli-units. -/
def Quantity.MilliValue (q : Quantity) : Int :=
  q.milli

/-- Model of `resource.MaxMilliValue = int64(math.MaxInt64 / 1000)`. -/
def MaxMilliValue : Int := 9223372036854775

/-- Model of `addCpuLimit` (cgroup.go:60-67): errors when
`limit.Value() > resource.MaxMilliValue`, otherwise appends a
`CPUQuota` unit option of `MilliValue()/10` percent. -/
def addCpuLimit (opts : List UnitOption) (limit : Quantity) :
    Except GoErr (List UnitOption) :=
  if MaxMilliValue < limit.Value then
    .error (.msg "cpu limit exceeds the maximum millivalue")
  else
    .ok (opts ++ [NewUnitOption "Service" "CPUQuota"
      (toString (limit.MilliValue.tdiv 10) ++ "%")])

/-- Model of `addMemoryLimit` (cgroup.go:69-72): appends a
`MemoryLimit` unit option of `limit.Value()` verbatim. -/
def addMemoryLimit (opts : List UnitOption) (limit : Quantity) :
    Except GoErr (List UnitOption) :=
  .ok (opts ++ [NewUnitOption "Service" "MemoryLimit" (toString limit.Value)])

/-- Model of the `isolatorFuncs` map literal (cgroup.go:46-49); a key
not in the map yields `none` (a nil `addIsolatorFunc`). -/
def isolatorFuncs (isolator : String) :
    Option (List UnitOption → Quantity → Except GoErr (List UnitOption)) :=
  if isolator = "cpu" then some addCpuLimit
  else if isolator = "memory" then some addMemoryLimit
  else none

/-- Model of `IsIsolatorSupported` (cgroup.go:101-123) applied to the
lines of `/proc/cgroups`: skips the first line, then reports whether
any remaining line starts with the isolator name. -/
def IsIsolatorSupported (procCgroupLines : List String) (isolator : String) :
    Bool :=
  (procCgroupLines.drop 1).any (fun l => goHasPrefix l isolator)

/-- Result of a call to `MaybeAddIsolator`: a normal return, an error
return, or a runtime fault from calling a nil function value. -/
inductive MResult where
  | ok (opts : List UnitOption) : MResult
  | err (e : GoErr) : MResult
  | nilCall : MResult
deriving DecidableEq, Repr

/-- Model of `MaybeAddIsolator` (cgroup.go:78-98): nil limit returns
the options untouched; an unsupported isolator only warns; a supported
isolator is dispatched through `isolatorFuncs`, faulting if the map
lookup yields a nil function. -/
def MaybeAddIsolator (procCgroupLines : List String) (opts : List UnitOption)
    (isolator : String) (limit : Option Quantity) : MResult :=
  match limit with
  | none => .ok opts
  | some q =>
    if IsIsolatorSupported procCgroupLines isolator then
      match isolatorFuncs isolator with
      | some f =>
        match f opts q with
        | .ok o => .ok o
        | .error e => .err e
      | none => .nilCall
    else
      .ok opts

/-- Model of the `legacyCgroupControllerRWFiles` map literal
(cgroup.go:50-54) as a lookup function. -/
def legacyCgroupControllerRWFiles (controller : String) :
    Option (List String) :=
  if controller = "memory" then some ["memory.limit_in_bytes"]
  else if controller = "cpu" then some ["cpu.cfs_quota_us"]
  else if controller = "devices" then some ["devices.allow", "devices.deny"]
  else none

/-- Model of the `cgroupControllerRWFiles` map literal (cgroup.go:55-57)
as an association list (one entry). -/
def cgroupControllerRWFiles : List (String × List String) :=
  [("memory", ["memory.low", "memory.high", "memory.max", "memory.swap.max"])]

/-- Loop body of `getLegacyControllerRWFiles`: scan the comma-split
parts and return the files of the first part found in the legacy map,
with `cgroup.procs` appended; return the empty list (Go `nil`) if no
part is in the map. -/
def getLegacyControllerRWFilesLoop : List String → List String
  | [] => []
  | p :: ps =>
    match legacyCgroupControllerRWFiles p with
    | some files => files ++ ["cgroup.procs"]
    | none => getLegacyControllerRWFilesLoop ps

/-- Model of `getLegacyControllerRWFiles` (cgroup.go:229-241). -/
def getLegacyControllerRWFiles (controller : String) : List String :=
  getLegacyControllerRWFilesLoop (goSplit controller ',')

/-- Model of `getControllersRWFiles` (cgroup.go:243-250): the fixed
base list plus the files of every entry of `cgroupControllerRWFiles`. -/
def getControllersRWFiles : List String :=
  cgroupControllerRWFiles.foldl (fun files e => files ++ e.2)
    ["cgroup.procs", "cgroup.controllers", "cgroup.subtree_control", "cgroup.events"]

/-- Model of `GetLegacyControllerDirs` (cgroup.go:205-212): the
comma-joined controller names of every hierarchy group, in the order
of the association list that models the Go map. -/
def GetLegacyControllerDirs (cgroups : List (Int × List String)) :
    List String :=
  cgroups.map (fun e => String.intercalate "," e.2)

/-- Upsert into an association list, modelling a Go map assignment
`m[k] = v` with insertion order retained for iteration. -/
def assocSet (m : List (String × String)) (k v : String) :
    List (String × String) :=
  match m with
  | [] => [(k, v)]
  | (k₀, v₀) :: rest =>
    if k₀ = k then (k₀, v) :: rest else (k₀, v₀) :: assocSet rest k v

/-- Model of `getLegacyControllerSymlinks` (cgroup.go:214-227): for
every hierarchy group with more than one controller, map each member
name to the comma-joined directory name. -/
def getLegacyControllerSymlinks (cgroups : List (Int × List String)) :
    List (String × String) :=
  cgroups.foldl
    (fun symlinks e =>
      if 1 < e.2.length then
        let tgt := String.intercalate "," e.2
        e.2.foldl (fun m ln => assocSet m ln tgt) symlinks
      else symlinks)
    []

/-! Character-level model of the `fmt.Sscanf(line, "%s %d %d %d", ...)`
call of `parseLegacyCgroups`. -/

/-- Skip leading blanks, as `fmt` verbs do before matching. -/
def skipSp : List Char → List Char
  | [] => []
  | c :: r => if c = ' ' ∨ c = '\t' then skipSp r else c :: r

/-- Scan a `%s` verb: a maximal nonempty run of non-blank characters. -/
def scanStr (cs : List Char) : Option (String × List Char) :=
  let tok := cs.takeWhile (fun c => ¬(c = ' ' ∨ c = '\t'))
  if tok.isEmpty then none
  else some (String.mk tok, cs.dropWhile (fun c => ¬(c = ' ' ∨ c = '\t')))

/-- Value of a run of decimal digits. -/
def digitsVal (ds : List Char) : Nat :=
  ds.foldl (fun n c => n * 10 + (c.toNat - '0'.toNat)) 0

/-- Largest and smallest Go `int` (64-bit) values. -/
def maxInt64 : Int := 9223372036854775807

/-- Smallest Go `int` (64-bit) value. -/
def minInt64 : Int := -9223372036854775808

/-- Scan a `%d` verb: optional sign, then a maximal nonempty digit run;
fails when there is no digit or the value overflows a 64-bit int (in
which case Go leaves the destination at its zero value). -/
def scanInt (cs : List Char) : Option (Int × List Char) :=
  let (sign, rest) :=
    match cs with
    | '-' :: r => ((-1 : Int), r)
    | '+' :: r => ((1 : Int), r)
    | r => ((1 : Int), r)
  let ds := rest.takeWhile Char.isDigit
  if ds.isEmpty then none
  else
    let v : Int := sign * (digitsVal ds : Int)
    if v < minInt64 ∨ maxInt64 < v then none
    else some (v, rest.dropWhile Char.isDigit)

/-- Model of `fmt.Sscanf(line, "%s %d %d %d", &controller, &hierarchy,
&num, &enabled)` (cgroup.go:149): scanning stops at the first failing
verb, leaving the remaining destinations at their zero values. -/
def sscanfRow (line : String) : String × Int × Int × Int :=
  match scanStr (skipSp line.data) with
  | none => ("", 0, 0, 0)
  | some (controller, r₁) =>
    match scanInt (skipSp r₁) with
    | none => (controller, 0, 0, 0)
    | some (hierarchy, r₂) =>
      match scanInt (skipSp r₂) with
      | none => (controller, hierarchy, 0, 0)
      | some (num, r₃) =>
        match scanInt (skipSp r₃) with
        | none => (controller, hierarchy, num, 0)
        | some (enabled, _) => (controller, hierarchy, num, enabled)

/-- Model of the Go map insertion of `parseLegacyCgroups`
(cgroup.go:151-157): append the controller to the group of its
hierarchy id, creating the group if absent. -/
def insertGroup (acc : List (Int × List String)) (h : Int) (c : String) :
    List (Int × List String) :=
  match acc with
  | [] => [(h, [c])]
  | (k, cs) :: rest =>
    if k = h then (k, cs ++ [c]) :: rest else (k, cs) :: insertGroup rest h c

/-- Model of `parseLegacyCgroups` (cgroup.go:137-165) on the lines of
the reader: skip the first line, scan each remaining line with
`%s %d %d %d`, and record rows whose `enabled` field is 1, grouped by
hierarchy id. -/
def parseLegacyCgroups (lines : List String) : List (Int × List String) :=
  (lines.drop 1).foldl
    (fun acc line =>
      let r := sscanfRow line
      if r.2.2.2 = 1 then insertGroup acc r.2.1 r.1 else acc)
    []

/-- The rows a scanned row list contributes: name and hierarchy id of
every row whose `enabled` field is 1. -/
def enabledRowsOf (rows : List (String × Int × Int × Int)) :
    List (String × Int) :=
  rows.filterMap (fun r => if r.2.2.2 = 1 then some (r.1, r.2.1) else none)

/-- The enabled rows of a `/proc/cgroups` fixture: name and hierarchy
id of every scanned row (header line excluded) whose `enabled` field
is 1. -/
def enabledRows (lines : List String) : List (String × Int) :=
  enabledRowsOf ((lines.drop 1).map sscanfRow)

/-- Lookup of a hierarchy's controller group in the association list
modelling the result map; the empty list when the key is absent (a
key never maps to an empty group). -/
def groupOf (acc : List (Int × List String)) (h : Int) : List String :=
  match acc.find? (fun e => e.1 == h) with
  | some e => e.2
  | none => []

/-- One step of the fold of `parseLegacyCgroups`, on an already
scanned row. -/
def stepRow (acc : List (Int × List String)) (r : String × Int × Int × Int) :
    List (Int × List String) :=
  if r.2.2.2 = 1 then insertGroup acc r.2.1 r.1 else acc

/-- Model of `strings.SplitN(s, sep, 3)` for a one-character
separator: like `goSplit` but the third part keeps the remaining
separators. -/
def goSplitN3 (s : String) (sep : Char) : List String :=
  match splitChar sep s.data with
  | p₀ :: p₁ :: p₂ :: rest =>
    [String.mk p₀, String.mk p₁, String.mk (List.intercalate [sep] (p₂ :: rest))]
  | parts => parts.map String.mk

/-- Model of `parseLegacyCgroupController` (cgroup.go:252-274) on the
lines of `/proc/<pid>/cgroup`: find the first line whose second
`:`-field, split on commas, contains the controller, and return its
split; a short line is a parse error, exhaustion is a not-found
error. -/
def parseLegacyCgroupController (lines : List String) (controller : String) :
    Except GoErr (List String) :=
  match lines with
  | [] => .error (.msg ("controller \"" ++ controller ++ "\" not found"))
  | l :: ls =>
    let parts := goSplitN3 l ':'
    if parts.length < 3 then .error (.msg "error parsing /proc/self/cgroup")
    else if controller ∈ goSplit (parts.getD 1 "") ',' then .ok parts
    else parseLegacyCgroupController ls controller

/-- Model of `GetLegacyCgroupPathByPid` (cgroup.go:310-316): the third
field of the matching line of `/proc/<pid>/cgroup`. -/
def GetLegacyCgroupPathByPid (lines : List String) (controller : String) :
    Except GoErr String :=
  match parseLegacyCgroupController lines controller with
  | .error e => .error e
  | .ok parts => .ok (parts.getD 2 "")

/-! Mount-syscall layer: flags, paths, the operation trace and the
environment answering each syscall. -/

/-- Linux mount flag `MS_RDONLY`. -/
def MS_RDONLY : Nat := 1

/-- Linux mount flag `MS_NOSUID`. -/
def MS_NOSUID : Nat := 2

/-- Linux mount flag `MS_NODEV`. -/
def MS_NODEV : Nat := 4

/-- Linux mount flag `MS_NOEXEC`. -/
def MS_NOEXEC : Nat := 8

/-- Linux mount flag `MS_REMOUNT`. -/
def MS_REMOUNT : Nat := 32

/-- Linux mount flag `MS_BIND`. -/
def MS_BIND : Nat := 4096

/-- Linux mount flag `MS_STRICTATIME`. -/
def MS_STRICTATIME : Nat := 16777216

/-- Model of `filepath.Join(a, b)` for already-clean components: insert
a separator unless the second component brings its own. -/
def goJoin (a b : String) : String :=
  if b.data.head? = some '/' then a ++ b else a ++ "/" ++ b

/-- Model of `strings.TrimSuffix`. -/
def goTrimSuffix (s suffix : String) : String :=
  if suffix.data.isSuffixOf s.data then
    String.mk (s.data.take (s.data.length - suffix.data.length))
  else s

/-- One attempted file-system operation, in the order the code issues
them. -/
inductive Op where
  | mkdir (path : String) (perm : Nat) : Op
  | mount (source target fstype : String) (flags : Nat) (data : String) : Op
  | symlink (target link : String) : Op
  | fixCpuset (path : String) : Op
deriving DecidableEq, Repr

/-- Environment answering each attempted operation: whether `os.Stat`
fails with not-exist, and the error (if any) of each mkdir, mount and
symlink call. -/
structure Env where
  statNotExist : String → Bool
  mkdirAllErr : String → Option GoErr
  mountErr : String → String → String → Nat → String → Option GoErr
  symlinkErr : String → String → Option GoErr

/-- Result of running an effectful code fragment: the trace of
attempted operations and the error it returned, if any. -/
def R := List Op × Option GoErr

/-- Sequencing: run the continuation only when the first fragment
returned no error; traces concatenate. -/
def andThen (r : R) (k : Unit → R) : R :=
  match r.2 with
  | some e => (r.1, some e)
  | none => ((r.1 ++ (k ()).1 : List Op), (k ()).2)

/-- A fragment that performs nothing. -/
def skip : R := ([], none)

/-- An `os.MkdirAll(path, perm)` call whose error is returned raw. -/
def mkdirStep (env : Env) (path : String) (perm : Nat) : R :=
  ([Op.mkdir path perm], env.mkdirAllErr path)

/-- A `syscall.Mount` call whose error is wrapped with a message. -/
def mountStep (env : Env) (source target fstype : String) (flags : Nat)
    (data : String) (wrapMsg : String) : R :=
  ([Op.mount source target fstype flags data],
    (env.mountErr source target fstype flags data).map (GoErr.wrap wrapMsg))

/-- The fixed flag set of `mountFsRO` (cgroup.go:551-556). -/
def roFlags : Nat :=
  MS_BIND ||| MS_REMOUNT ||| MS_NOSUID ||| MS_NOEXEC ||| MS_NODEV ||| MS_RDONLY

/-- Model of `mountFsRO` (cgroup.go:550-562). -/
def mountFsRO (env : Env) (mountPoint : String) : R :=
  mountStep env mountPoint mountPoint "" roFlags ""
    ("error remounting RO " ++ mountPoint)

/-- The read-only remount operation `mountFsRO` issues for a path. -/
def roOp (p : String) : Op :=
  Op.mount p p "" roFlags ""

/-- The self bind-mount operation issued for a whitelisted file. -/
def bindOp (p : String) : Op :=
  Op.mount p p "" MS_BIND ""

/-! Model of `RemountLegacyCgroupsRO` (cgroup.go:505-548). -/

/-- The controller mount point `filepath.Join(root, "/sys/fs/cgroup", c)`. -/
def cPathOf (root c : String) : String :=
  goJoin (goJoin root "/sys/fs/cgroup") c

/-- The per-service cgroup directory
`filepath.Join(cPath, subcgroup, "system.slice", serviceName)`. -/
def appCgroupOf (root subcgroup c serviceName : String) : String :=
  goJoin (goJoin (goJoin (cPathOf root c) subcgroup) "system.slice") serviceName

/-- The whitelisted file path bind-mounted over itself. -/
def bindPathOf (root subcgroup c serviceName f : String) : String :=
  goJoin (appCgroupOf root subcgroup c serviceName) f

/-- Inner file loop of `RemountLegacyCgroupsRO` (cgroup.go:527-537):
skip a file whose stat fails with not-exist, else bind-mount it over
itself. -/
def bindFilesLoop (env : Env) (appCgroup : String) : List String → R
  | [] => skip
  | f :: fs =>
    let p := goJoin appCgroup f
    if env.statNotExist p then bindFilesLoop env appCgroup fs
    else
      andThen
        (mountStep env p p "" MS_BIND "" ("error bind mounting " ++ p))
        (fun _ => bindFilesLoop env appCgroup fs)

/-- Service loop of `RemountLegacyCgroupsRO` (cgroup.go:522-538):
create each service's cgroup directory, then bind-mount its RW files. -/
def servicesLoop (env : Env) (root subcgroup c : String) : List String → R
  | [] => skip
  | serviceName :: rest =>
    andThen (mkdirStep env (appCgroupOf root subcgroup c serviceName) 0o755)
      (fun _ =>
        andThen (bindFilesLoop env (appCgroupOf root subcgroup c serviceName)
            (getLegacyControllerRWFiles c))
          (fun _ => servicesLoop env root subcgroup c rest))

/-- Work done for one controller mount point before its read-only
remount (cgroup.go:515-538): cpuset workaround and service loop. -/
def controllerInner (env : Env) (root subcgroup : String)
    (serviceNames : List String) (c : String) : R :=
  andThen
    (if c = "cpuset" then ([Op.fixCpuset (cPathOf root c)], none) else skip)
    (fun _ => servicesLoop env root subcgroup c serviceNames)

/-- Work done for one controller mount point (cgroup.go:511-544):
cpuset workaround, service loop, then the read-only remount of the
controller mount point. -/
def controllerStep (env : Env) (root subcgroup : String)
    (serviceNames : List String) (c : String) : R :=
  andThen (controllerInner env root subcgroup serviceNames c)
    (fun _ => mountFsRO env (cPathOf root c))

/-- Controller loop of `RemountLegacyCgroupsRO`. -/
def controllersLoop (env : Env) (root subcgroup : String)
    (serviceNames : List String) : List String → R
  | [] => skip
  | c :: cs =>
    andThen (controllerStep env root subcgroup serviceNames c)
      (fun _ => controllersLoop env root subcgroup serviceNames cs)

/-- Model of `RemountLegacyCgroupsRO` (cgroup.go:505-548): per
controller, bind-mount the RW whitelist files of every service and
remount the controller read-only; finally remount `<root>/sys`
read-only. -/
def RemountLegacyCgroupsRO (env : Env) (root : String)
    (enabledCgroups : List (Int × List String)) (subcgroup : String)
    (serviceNames : List String) : R :=
  andThen
    (controllersLoop env root subcgroup serviceNames
      (GetLegacyControllerDirs enabledCgroups))
    (fun _ => mountFsRO env (goJoin root "/sys"))

/-- A string containing no path separator, as controller directory
names built from `/proc/cgroups` controller names are. -/
def slashFree (s : String) : Prop :=
  '/' ∉ s.data

instance (s : String) : Decidable (slashFree s) :=
  inferInstanceAs (Decidable ('/' ∉ s.data))

/-- Whether an operation is the self bind-mount of one of controller
`c`'s whitelisted RW files for one of the services. -/
def isWhitelistBind (root subcgroup : String) (serviceNames : List String)
    (c : String) (op : Op) : Prop :=
  ∃ svc ∈ serviceNames, ∃ f ∈ getLegacyControllerRWFiles c,
    op = bindOp (bindPathOf root subcgroup c svc f)

/-- The lockdown ordering property for one controller: once the trace
contains the read-only remount of `c`'s mount point, no whitelist-file
bind-mount for `c` follows it. -/
def noBindAfterRO (root subcgroup : String) (serviceNames : List String)
    (c : String) (t : List Op) : Prop :=
  ∀ t₁ t₂, t = t₁ ++ roOp (cPathOf root c) :: t₂ →
    ∀ op ∈ t₂, ¬isWhitelistBind root subcgroup serviceNames c op

/-- Model of `RemountCgroupsRO` (cgroup.go:567-606): create the
subcgroup directory, bind-mount the machine directory over itself,
then remount the cgroup tree and `<root>/sys` read-only.  The
`serviceNames` argument is accepted and never used, as in the code. -/
def RemountCgroupsRO (env : Env) (root subcgroup : String)
    (serviceNames : List String) : R :=
  let cgroupFsPath := goJoin root "sys/fs/cgroup"
  let subcgroupPath := goJoin (goJoin root "sys/fs/cgroup") subcgroup
  let sysPath := goJoin root "/sys"
  let machineDir := goTrimSuffix subcgroupPath "/system.slice"
  let _ := serviceNames
  andThen (mkdirStep env subcgroupPath 0o700)
    (fun _ =>
      andThen (mountStep env machineDir machineDir "" MS_BIND ""
          ("error bind mounting " ++ subcgroupPath))
        (fun _ =>
          andThen (mountStep env cgroupFsPath cgroupFsPath "" roFlags ""
              ("error remounting RO " ++ cgroupFsPath))
            (fun _ => mountStep env sysPath sysPath "" roFlags ""
              ("error remounting RO " ++ sysPath))))

/-! Models of the two hierarchy builders (cgroup.go:395-461 and
cgroup.go:465-500). -/

/-- Flags of the sysfs mounts in both builders. -/
def sysfsFlags : Nat := MS_NOSUID ||| MS_NOEXEC ||| MS_NODEV

/-- Flags of the tmpfs and cgroup2 mounts. -/
def tmpfsFlags : Nat := MS_NOSUID ||| MS_NOEXEC ||| MS_NODEV ||| MS_STRICTATIME

/-- Controller mount loop of `CreateLegacyCgroups` (cgroup.go:431-443). -/
def mountControllersLoop (env : Env) (root : String) : List String → R
  | [] => skip
  | c :: cs =>
    andThen (mkdirStep env (cPathOf root c) 0o700)
      (fun _ =>
        andThen (mountStep env "cgroup" (cPathOf root c) "cgroup" sysfsFlags c
            ("error mounting " ++ cPathOf root c))
          (fun _ => mountControllersLoop env root cs))

/-- Symlink loop of `CreateLegacyCgroups` (cgroup.go:446-452). -/
def symlinksLoop (env : Env) (cgroupTmpfs : String) :
    List (String × String) → R
  | [] => skip
  | (ln, tgt) :: rest =>
    andThen ([Op.symlink tgt (goJoin cgroupTmpfs ln)],
        (env.symlinkErr tgt (goJoin cgroupTmpfs ln)).map
          (GoErr.wrap "error creating symlink"))
      (fun _ => symlinksLoop env cgroupTmpfs rest)

/-- Model of `CreateLegacyCgroups` (cgroup.go:395-461).  An `EBUSY`
from the sysfs mount is tolerated (cgroup.go:408); any other error of
that mount is fatal. -/
def CreateLegacyCgroups (env : Env) (root : String)
    (enabledCgroups : List (Int × List String)) (mountContext : String) : R :=
  let controllers := GetLegacyControllerDirs enabledCgroups
  let sys := goJoin root "/sys"
  let cgroupTmpfs := goJoin root "/sys/fs/cgroup"
  let options :=
    if mountContext = "" then "mode=755"
    else "mode=755,context=\"" ++ mountContext ++ "\""
  andThen (mkdirStep env sys 0o700)
    (fun _ =>
      andThen ([Op.mount "sysfs" sys "sysfs" sysfsFlags ""],
          match env.mountErr "sysfs" sys "sysfs" sysfsFlags "" with
          | none => none
          | some e =>
            if e = GoErr.ebusy then none
            else some (GoErr.wrap ("error mounting " ++ sys) e))
        (fun _ =>
          andThen (mkdirStep env cgroupTmpfs 0o700)
            (fun _ =>
              andThen (mountStep env "tmpfs" cgroupTmpfs "tmpfs" tmpfsFlags
                  options ("error mounting " ++ cgroupTmpfs))
                (fun _ =>
                  andThen (mountControllersLoop env root controllers)
                    (fun _ =>
                      andThen (symlinksLoop env cgroupTmpfs
                          (getLegacyControllerSymlinks enabledCgroups))
                        (fun _ =>
                          andThen (mkdirStep env
                              (goJoin root "/sys/fs/cgroup/systemd") 0o700)
                            (fun _ => mountFsRO env cgroupTmpfs)))))))

/-- Model of `CreateCgroups` (cgroup.go:465-500).  The sysfs mount has
no `EBUSY` exemption here: any error of it is fatal (cgroup.go:476). -/
def CreateCgroups (env : Env) (root : String) : R :=
  let sys := goJoin root "/sys"
  let cgroupFs := goJoin root "/sys/fs/cgroup"
  andThen (mkdirStep env sys 0o700)
    (fun _ =>
      andThen (mountStep env "sysfs" sys "sysfs" sysfsFlags ""
          ("error mounting " ++ sys))
        (fun _ =>
          andThen (mkdirStep env cgroupFs 0o700)
            (fun _ =>
              andThen (mountStep env "cgroup2" cgroupFs "cgroup2" tmpfsFlags ""
                  ("error mounting " ++ cgroupFs))
                (fun _ =>
                  mkdirStep env (goJoin root "/sys/fs/cgroup/machine.slice")
                    0o700))))

/-! Fixture environments used by concrete counterexamples and
witnesses. -/

/-- An environment in which every file exists and every syscall
succeeds. -/
def happyEnv : Env :=
  ⟨fun _ => false, fun _ => none, fun _ _ _ _ _ => none, fun _ _ => none⟩

/-- An environment in which every sysfs mount fails with `EBUSY` and
everything else succeeds. -/
def sysfsBusyEnv : Env :=
  ⟨fun _ => false, fun _ => none,
    fun _ _ fstype _ _ => if fstype = "sysfs" then some .ebusy else none,
    fun _ _ => none⟩

/-- Whether an operation is a self bind-mount of a file with the given
name (final path component). -/
def isFileBind (f : String) (op : Op) : Bool :=
  match op with
  | .mount _ target _ flags _ =>
    flags == MS_BIND && ("/" ++ f).data.isSuffixOf target.data
  | _ => false

end RktCgroup

namespace RktCgroup

/-- C3, counterexample: for the controller directory name `cpuset`,
which has no entry in the per-controller whitelist,
`getLegacyControllerRWFiles` returns the empty list, so the claimed
always-included `cgroup.procs` is absent. -/
theorem getLegacyControllerRWFiles_cpuset_empty :
    getLegacyControllerRWFiles "cpuset" = [] ∧
    "cgroup.procs" ∉ getLegacyControllerRWFiles "cpuset" := by
  decide

/-- Helper for C3: `cgroup.procs` is produced by the loop exactly when
some scanned part is a key of the legacy whitelist map. -/
theorem getLegacyControllerRWFilesLoop_procs_iff (parts : List String) :
    ("cgroup.procs" ∈ getLegacyControllerRWFilesLoop parts ↔
      ∃ p ∈ parts, (legacyCgroupControllerRWFiles p).isSome) := by
  induction parts with
  | nil => simp [getLegacyControllerRWFilesLoop]
  | cons p ps ih =>
    rcases h : legacyCgroupControllerRWFiles p with _ | files
    · simp only [getLegacyControllerRWFilesLoop, h, List.mem_cons]
      rw [ih]
      constructor
      · rintro ⟨q, hq, hqs⟩
        exact ⟨q, Or.inr hq, hqs⟩
      · rintro ⟨q, hq | hq, hqs⟩
        · rw [hq, h] at hqs
          simp at hqs
        · exact ⟨q, hq, hqs⟩
    · simp [getLegacyControllerRWFilesLoop, h]

/-- Helper for C3: the loop answers the empty list exactly when no
scanned part is a key of the legacy whitelist map. -/
theorem getLegacyControllerRWFilesLoop_nil_iff (parts : List String) :
    (getLegacyControllerRWFilesLoop parts = [] ↔
      ∀ p ∈ parts, legacyCgroupControllerRWFiles p = none) := by
  induction parts with
  | nil => simp [getLegacyControllerRWFilesLoop]
  | cons p ps ih =>
    rcases h : legacyCgroupControllerRWFiles p with _ | files
    · simp only [getLegacyControllerRWFilesLoop, h]
      rw [ih]
      constructor
      · intro hall q hq
        rcases List.mem_cons.mp hq with hq | hq
        · rw [hq]
          exact h
        · exact hall q hq
      · intro hall q hq
        exact hall q (List.mem_cons_of_mem _ hq)
    · simp only [getLegacyControllerRWFilesLoop, h]
      constructor
      · intro habs
        exact absurd habs (by simp)
      · intro hall
        have := hall p (List.mem_cons_self _ _)
        rw [h] at this
        exact absurd this (by simp)

/-- C3, amended: `cgroup.procs` is in the RW file list exactly when
some comma-separated part of the controller directory name is a key of
the legacy whitelist map; for directory names none of whose parts is a
key (such as `cpuset`), the whole list is empty, so no file — not even
`cgroup.procs` — is bind-mounted for that controller. -/
theorem getLegacyControllerRWFiles_spec (c : String) :
    ("cgroup.procs" ∈ getLegacyControllerRWFiles c ↔
      ∃ p ∈ goSplit c ',', (legacyCgroupControllerRWFiles p).isSome) ∧
    (getLegacyControllerRWFiles c = [] ↔
      ∀ p ∈ goSplit c ',', legacyCgroupControllerRWFiles p = none) :=
  ⟨getLegacyControllerRWFilesLoop_procs_iff _,
   getLegacyControllerRWFilesLoop_nil_iff _⟩

/-- C4, counterexample: a CPU quantity of `MaxMilliValue + 1`
millicores exceeds the platform's maximum millivalue, yet `addCpuLimit`
succeeds instead of returning the claimed out-of-range error, because
the code guards `limit.Value()` — the quantity rounded up to whole
cores — not the millicore value. -/
theorem addCpuLimit_not_milli_guard :
    MaxMilliValue < (Quantity.mk 9223372036854776).MilliValue ∧
    addCpuLimit [] (Quantity.mk 9223372036854776) =
      .ok [NewUnitOption "Service" "CPUQuota" "922337203685477%"] := by
  constructor
  · decide
  · rfl

/-- Helper for C4: on nonnegative numerators, `roundAwayDiv` by 1000
exceeds a nonnegative bound exactly when the numerator exceeds 1000
times the bound. -/
theorem roundAwayDiv_lt_iff (m k : Int) (hk : 0 ≤ k) :
    (k < roundAwayDiv m 1000 ↔ 1000 * k < m) := by
  rcases le_or_lt 0 m with hm | hm
  · rw [roundAwayDiv, if_pos hm]
    rw [Int.tdiv_eq_ediv (by omega) (by omega)]
    omega
  · rw [roundAwayDiv, if_neg (by omega)]
    have h₁ : 0 ≤ (-m + 1000 - 1).tdiv 1000 := by
      rw [Int.tdiv_eq_ediv (by omega) (by omega)]
      exact Int.ediv_nonneg (by omega) (by omega)
    omega

/-- C4, amended: `addCpuLimit` fails exactly when the quantity's
whole-core value (`Value()`, millicores rounded up to cores) exceeds
`resource.MaxMilliValue` — equivalently, when the millicore value
exceeds `1000 * MaxMilliValue` — and otherwise emits
`MilliValue()/10` percent (500 millicores give "50%");
`addMemoryLimit` never fails and passes the byte count through
verbatim (134217728 bytes give "134217728"). -/
theorem addCpuLimit_addMemoryLimit_spec (opts : List UnitOption) (q : Quantity) :
    ((∃ e, addCpuLimit opts q = .error e) ↔ 1000 * MaxMilliValue < q.MilliValue) ∧
    addCpuLimit opts ⟨500⟩ =
      .ok (opts ++ [NewUnitOption "Service" "CPUQuota" "50%"]) ∧
    addMemoryLimit opts ⟨134217728000⟩ =
      .ok (opts ++ [NewUnitOption "Service" "MemoryLimit" "134217728"]) ∧
    addMemoryLimit opts q =
      .ok (opts ++ [NewUnitOption "Service" "MemoryLimit" (toString q.Value)]) := by
  refine ⟨?_, rfl, rfl, rfl⟩
  have hiff : (MaxMilliValue < q.Value ↔ 1000 * MaxMilliValue < q.MilliValue) :=
    roundAwayDiv_lt_iff q.milli MaxMilliValue (by decide)
  constructor
  · rintro ⟨e, he⟩
    rw [addCpuLimit] at he
    by_cases h : MaxMilliValue < q.Value
    · exact hiff.mp h
    · rw [if_neg h] at he
      exact absurd he (by simp)
  · intro h
    refine ⟨.msg "cpu limit exceeds the maximum millivalue", ?_⟩
    rw [addCpuLimit, if_pos (hiff.mpr h)]

/-- C5: `MaybeAddIsolator` with a nil limit returns the input options
unchanged with no error — unconditionally, whatever the isolator kind
and the kernel's `/proc/cgroups` — and for an isolator the kernel does
not support (per `IsIsolatorSupported` over `/proc/cgroups`) it also
returns the options unchanged without error. -/
theorem MaybeAddIsolator_noop (lines : List String) (opts : List UnitOption)
    (isolator : String) (q : Quantity) :
    MaybeAddIsolator lines opts isolator none = .ok opts ∧
    (IsIsolatorSupported lines isolator = false →
      MaybeAddIsolator lines opts isolator (some q) = .ok opts) := by
  refine ⟨rfl, fun h => ?_⟩
  rw [MaybeAddIsolator, h]
  simp

/-- C5, witness: on a `/proc/cgroups` fixture with a `cpu` line, the
nil-limit no-op holds for the supported kind `cpu`, and the
unsupported kind `pids` is a warning-only no-op. -/
theorem MaybeAddIsolator_noop_witness :
    MaybeAddIsolator ["#subsys_name hierarchy num_cgroups enabled",
      "cpu 3 1 1"] [] "cpu" none = .ok [] ∧
    IsIsolatorSupported ["#subsys_name hierarchy num_cgroups enabled",
      "cpu 3 1 1"] "pids" = false ∧
    MaybeAddIsolator ["#subsys_name hierarchy num_cgroups enabled",
      "cpu 3 1 1"] [] "pids" (some ⟨500⟩) = .ok [] :=
  ⟨(MaybeAddIsolator_noop ["#subsys_name hierarchy num_cgroups enabled",
      "cpu 3 1 1"] [] "cpu" ⟨500⟩).1,
   by decide,
   (MaybeAddIsolator_noop ["#subsys_name hierarchy num_cgroups enabled",
      "cpu 3 1 1"] [] "pids" ⟨500⟩).2 (by decide)⟩

/-- C10: for an isolator kind outside the two keys of `isolatorFuncs`
whose name opens a `/proc/cgroups` line — so `IsIsolatorSupported`
reports true — `MaybeAddIsolator` calls the nil function produced by
the map lookup and faults; for the kinds `cpu` and `memory` the nil
call is unreachable. -/
theorem MaybeAddIsolator_nil_dispatch (lines : List String)
    (opts : List UnitOption) (isolator : String) (q : Quantity) :
    (isolatorFuncs isolator = none →
      IsIsolatorSupported lines isolator = true →
      MaybeAddIsolator lines opts isolator (some q) = .nilCall) ∧
    (isolator = "cpu" ∨ isolator = "memory" →
      MaybeAddIsolator lines opts isolator (some q) ≠ .nilCall) := by
  constructor
  · intro hnone hsupp
    rw [MaybeAddIsolator, hsupp, hnone]
    simp
  · intro hkind
    rw [MaybeAddIsolator]
    rcases hkind with h | h <;>
      (rw [h]
       rcases hiso : IsIsolatorSupported lines _ <;>
        simp [isolatorFuncs, addCpuLimit, addMemoryLimit] <;>
        (try split) <;> simp)

/-- C10, witness: a `pids` line makes `IsIsolatorSupported` true, the
dispatch for `pids` yields the nil function and the call faults, while
the `cpu` kind never reaches the fault. -/
theorem MaybeAddIsolator_nil_dispatch_witness :
    MaybeAddIsolator ["#subsys_name hierarchy num_cgroups enabled",
      "pids 5 1 1"] [] "pids" (some ⟨500⟩) = .nilCall ∧
    MaybeAddIsolator ["#subsys_name hierarchy num_cgroups enabled",
      "pids 5 1 1"] [] "cpu" (some ⟨500⟩) ≠ .nilCall :=
  ⟨(MaybeAddIsolator_nil_dispatch _ [] "pids" ⟨500⟩).1 rfl (by decide),
   (MaybeAddIsolator_nil_dispatch _ [] "cpu" ⟨500⟩).2 (Or.inl rfl)⟩

/-- C7, counterexample: `parseLegacyCgroups` skips only the first line;
on a fixture whose second line is the row `cpuset 2 4 1`, that row is
parsed and included, which a two-line header skip would have dropped. -/
theorem parseLegacyCgroups_one_line_skip :
    parseLegacyCgroups ["#subsys_name hierarchy num_cgroups enabled",
      "cpuset 2 4 1", "cpu 3 4 1"] = [(2, ["cpuset"]), (3, ["cpu"])] ∧
    (2, ["cpuset"]) ∈ parseLegacyCgroups
      ["#subsys_name hierarchy num_cgroups enabled",
        "cpuset 2 4 1", "cpu 3 4 1"] := by
  decide

/-- C7, amended: the parser skips exactly one header line — the first
line's content is irrelevant, and the second line is already parsed as
a controller row. -/
theorem parseLegacyCgroups_skips_first_line :
    (∀ (a b : String) (rest : List String),
      parseLegacyCgroups (a :: rest) = parseLegacyCgroups (b :: rest)) ∧
    (2, ["cpuset"]) ∈ parseLegacyCgroups
      ["#subsys_name hierarchy num_cgroups enabled", "cpuset 2 4 1"] :=
  ⟨fun _ _ _ => rfl, by decide⟩

/-- C2, counterexample: in an environment where every file exists and
every syscall succeeds, the unified lockdown performs its read-only
remount of the cgroup tree, yet no operation of the whole run is a
self bind-mount of any file of the fixed RW whitelist — the code never
consults `getControllersRWFiles`. -/
theorem RemountCgroupsRO_no_whitelist_binds :
    roOp (goJoin "/r" "sys/fs/cgroup") ∈
      (RemountCgroupsRO happyEnv "/r"
        "machine.slice/machine-rkt.scope/system.slice" ["app1.service"]).1 ∧
    ∀ op ∈ (RemountCgroupsRO happyEnv "/r"
        "machine.slice/machine-rkt.scope/system.slice" ["app1.service"]).1,
      ∀ f ∈ getControllersRWFiles, isFileBind f op = false := by
  decide

/-- C2, amended: the unified lockdown never bind-mounts individual
whitelist files; it ignores its service-name argument entirely and
issues exactly four operations — create the subcgroup directory,
bind-mount the machine directory (the subcgroup path with a trailing
`/system.slice` removed) over itself, then remount the cgroup tree and
`<root>/sys` read-only, aborting at the first failing call. -/
theorem RemountCgroupsRO_spec (root subcgroup : String)
    (serviceNames serviceNames' : List String) (env : Env) :
    RemountCgroupsRO env root subcgroup serviceNames =
      RemountCgroupsRO env root subcgroup serviceNames' ∧
    (∃ rest,
      [Op.mkdir (goJoin (goJoin root "sys/fs/cgroup") subcgroup) 0o700,
       bindOp (goTrimSuffix (goJoin (goJoin root "sys/fs/cgroup") subcgroup)
         "/system.slice"),
       roOp (goJoin root "sys/fs/cgroup"),
       roOp (goJoin root "/sys")] =
      (RemountCgroupsRO env root subcgroup serviceNames).1 ++ rest) ∧
    ((RemountCgroupsRO env root subcgroup serviceNames).2 = none →
      (RemountCgroupsRO env root subcgroup serviceNames).1 =
      [Op.mkdir (goJoin (goJoin root "sys/fs/cgroup") subcgroup) 0o700,
       bindOp (goTrimSuffix (goJoin (goJoin root "sys/fs/cgroup") subcgroup)
         "/system.slice"),
       roOp (goJoin root "sys/fs/cgroup"),
       roOp (goJoin root "/sys")]) := by
  refine ⟨rfl, ?_⟩
  simp only [RemountCgroupsRO, andThen, mkdirStep, mountStep, bindOp, roOp]
  rcases h1 : env.mkdirAllErr (goJoin (goJoin root "sys/fs/cgroup") subcgroup)
      with _ | e1
  · rcases h2 : env.mountErr
        (goTrimSuffix (goJoin (goJoin root "sys/fs/cgroup") subcgroup)
          "/system.slice")
        (goTrimSuffix (goJoin (goJoin root "sys/fs/cgroup") subcgroup)
          "/system.slice") "" MS_BIND "" with _ | e2
    · rcases h3 : env.mountErr (goJoin root "sys/fs/cgroup")
          (goJoin root "sys/fs/cgroup") "" roFlags "" with _ | e3
      · rcases h4 : env.mountErr (goJoin root "/sys") (goJoin root "/sys") ""
            roFlags "" with _ | e4
        · exact ⟨⟨[], by simp [h1, h2, h3, h4]⟩, by simp [h1, h2, h3, h4]⟩
        · exact ⟨⟨[], by simp [h1, h2, h3, h4]⟩, by simp [h1, h2, h3, h4]⟩
      · exact ⟨⟨[roOp (goJoin root "/sys")], by simp [roOp, h1, h2, h3]⟩,
          by simp [h1, h2, h3]⟩
    · exact ⟨⟨[roOp (goJoin root "sys/fs/cgroup"), roOp (goJoin root "/sys")],
        by simp [roOp, h1, h2]⟩, by simp [h1, h2]⟩
  · exact ⟨⟨[bindOp (goTrimSuffix (goJoin (goJoin root "sys/fs/cgroup")
        subcgroup) "/system.slice"), roOp (goJoin root "sys/fs/cgroup"),
        roOp (goJoin root "/sys")], by simp [roOp, bindOp, h1]⟩,
      by simp [h1]⟩

/-- C2, amended, witness: at concrete inputs with an all-success
environment the run completes and issues exactly the four operations. -/
theorem RemountCgroupsRO_spec_witness :
    (RemountCgroupsRO happyEnv "/r" "machine.slice/m.scope/system.slice"
      ["app1.service"]).2 = none ∧
    (RemountCgroupsRO happyEnv "/r" "machine.slice/m.scope/system.slice"
      ["app1.service"]).1 =
    [Op.mkdir (goJoin (goJoin "/r" "sys/fs/cgroup")
        "machine.slice/m.scope/system.slice") 0o700,
     bindOp (goTrimSuffix (goJoin (goJoin "/r" "sys/fs/cgroup")
        "machine.slice/m.scope/system.slice") "/system.slice"),
     roOp (goJoin "/r" "sys/fs/cgroup"),
     roOp (goJoin "/r" "/sys")] :=
  ⟨by decide,
   (RemountCgroupsRO_spec "/r" "machine.slice/m.scope/system.slice"
      ["app1.service"] [] happyEnv).2.2 (by decide)⟩

/-- C9, counterexample: with an environment failing every sysfs mount
with `EBUSY` and nothing else, the unified builder `CreateCgroups`
aborts with the wrapped `EBUSY` instead of treating it as success,
while the legacy builder `CreateLegacyCgroups` completes. -/
theorem CreateCgroups_ebusy_fatal :
    (CreateCgroups sysfsBusyEnv "/r").2 =
      some (GoErr.wrap "error mounting /r/sys" GoErr.ebusy) ∧
    (CreateLegacyCgroups sysfsBusyEnv "/r" [(1, ["cpu"])] "").2 = none := by
  decide

/-- C9, amended: only the legacy builder tolerates `EBUSY` from the
sysfs mount: when that mount fails with `EBUSY` (and the `<root>/sys`
mkdir succeeds), `CreateLegacyCgroups` proceeds past it to the next
step, while `CreateCgroups` aborts immediately, returning the wrapped
`EBUSY` after exactly the mkdir and the failed mount. -/
theorem create_sysfs_ebusy_asymmetry (root mountContext : String)
    (enabledCgroups : List (Int × List String)) (env : Env)
    (h1 : env.mkdirAllErr (goJoin root "/sys") = none)
    (h2 : env.mountErr "sysfs" (goJoin root "/sys") "sysfs" sysfsFlags "" =
      some GoErr.ebusy) :
    (∃ rest, (CreateLegacyCgroups env root enabledCgroups mountContext).1 =
      Op.mkdir (goJoin root "/sys") 0o700 ::
      Op.mount "sysfs" (goJoin root "/sys") "sysfs" sysfsFlags "" ::
      Op.mkdir (goJoin root "/sys/fs/cgroup") 0o700 :: rest) ∧
    CreateCgroups env root =
      ([Op.mkdir (goJoin root "/sys") 0o700,
        Op.mount "sysfs" (goJoin root "/sys") "sysfs" sysfsFlags ""],
       some (GoErr.wrap ("error mounting " ++ goJoin root "/sys")
         GoErr.ebusy)) := by
  constructor
  · simp only [CreateLegacyCgroups, andThen, mkdirStep, mountStep, h1, h2]
    rcases h3 : env.mkdirAllErr (goJoin root "/sys/fs/cgroup") with _ | e3
    · simp
    · simp
  · simp only [CreateCgroups, andThen, mkdirStep, mountStep, h1, h2]
    simp

/-- C9, amended, witness: the asymmetry at concrete inputs. -/
theorem create_sysfs_ebusy_asymmetry_witness :
    sysfsBusyEnv.mkdirAllErr (goJoin "/r" "/sys") = none ∧
    sysfsBusyEnv.mountErr "sysfs" (goJoin "/r" "/sys") "sysfs" sysfsFlags "" =
      some GoErr.ebusy ∧
    ((∃ rest, (CreateLegacyCgroups sysfsBusyEnv "/r" [(1, ["cpu"])] "").1 =
      Op.mkdir (goJoin "/r" "/sys") 0o700 ::
      Op.mount "sysfs" (goJoin "/r" "/sys") "sysfs" sysfsFlags "" ::
      Op.mkdir (goJoin "/r" "/sys/fs/cgroup") 0o700 :: rest) ∧
    CreateCgroups sysfsBusyEnv "/r" =
      ([Op.mkdir (goJoin "/r" "/sys") 0o700,
        Op.mount "sysfs" (goJoin "/r" "/sys") "sysfs" sysfsFlags ""],
       some (GoErr.wrap ("error mounting " ++ goJoin "/r" "/sys")
         GoErr.ebusy))) :=
  ⟨by decide, by decide,
   create_sysfs_ebusy_asymmetry "/r" "" [(1, ["cpu"])] sysfsBusyEnv
     (by decide) (by decide)⟩

/-- Whether a `/proc/<pid>/cgroup` line's controller list — the second
`:`-field split on commas — contains the controller. -/
def lineHasController (controller : String) (l : String) : Bool :=
  (goSplit ((goSplitN3 l ':').getD 1 "") ',').contains controller

/-- C8: on well-formed `/proc/<pid>/cgroup` input (every line splits
into 3 fields), the legacy path resolver returns the third field of
the first line whose comma-split controller list contains the
requested controller, and the not-found error when no line matches
after exhausting the file. -/
theorem GetLegacyCgroupPathByPid_spec (lines : List String)
    (controller : String)
    (h : ∀ l ∈ lines, 3 ≤ (goSplitN3 l ':').length) :
    GetLegacyCgroupPathByPid lines controller =
      match lines.find? (lineHasController controller) with
      | some l => .ok ((goSplitN3 l ':').getD 2 "")
      | none =>
        .error (.msg ("controller \"" ++ controller ++ "\" not found")) := by
  induction lines with
  | nil => rfl
  | cons l ls ih =>
    have hl := h l (List.mem_cons_self _ _)
    have hlen : ¬((goSplitN3 l ':').length < 3) := by omega
    by_cases hmem : controller ∈ goSplit ((goSplitN3 l ':').getD 1 "") ','
    · have hfind : lineHasController controller l = true := by
        simpa [lineHasController] using hmem
      rw [GetLegacyCgroupPathByPid, parseLegacyCgroupController]
      simp only [hlen, if_false, hmem, if_true, List.find?_cons, hfind,
        cond_true]
    · have hfind : lineHasController controller l = false := by
        simpa [lineHasController] using hmem
      rw [GetLegacyCgroupPathByPid, parseLegacyCgroupController]
      simp only [hlen, if_false, hmem, if_false, List.find?_cons, hfind,
        cond_false]
      rw [← GetLegacyCgroupPathByPid]
      exact ih (fun l' hl' => h l' (List.mem_cons_of_mem _ hl'))

/-- C8, witness: on the fixture line `4:memory:/machine-slice/app1`,
requesting `memory` yields `/machine-slice/app1` and requesting `cpu`
yields the not-found error. -/
theorem GetLegacyCgroupPathByPid_spec_witness :
    (∀ l ∈ ["4:memory:/machine-slice/app1"], 3 ≤ (goSplitN3 l ':').length) ∧
    GetLegacyCgroupPathByPid ["4:memory:/machine-slice/app1"] "memory" =
      .ok "/machine-slice/app1" ∧
    GetLegacyCgroupPathByPid ["4:memory:/machine-slice/app1"] "cpu" =
      .error (.msg "controller \"cpu\" not found") :=
  ⟨by decide,
   by
    rw [GetLegacyCgroupPathByPid_spec ["4:memory:/machine-slice/app1"]
      "memory" (by decide)]
    rfl,
   by
    rw [GetLegacyCgroupPathByPid_spec ["4:memory:/machine-slice/app1"]
      "cpu" (by decide)]
    rfl⟩

/-- Helper for C6: `parseLegacyCgroups` is the fold of `stepRow` over
the scanned rows. -/
theorem parseLegacyCgroups_eq_foldl (lines : List String) :
    parseLegacyCgroups lines =
      ((lines.drop 1).map sscanfRow).foldl stepRow [] := by
  rw [parseLegacyCgroups, List.foldl_map]
  rfl

/-- Helper for C6: how `insertGroup` changes each group lookup. -/
theorem groupOf_insertGroup (acc : List (Int × List String)) (h k : Int)
    (c : String) :
    groupOf (insertGroup acc h c) k =
      if k = h then groupOf acc k ++ [c] else groupOf acc k := by
  induction acc with
  | nil =>
    by_cases hk : k = h
    · simp [insertGroup, groupOf, List.find?, hk]
    · have hh : ¬(h == k) = true := by
        simp only [beq_iff_eq]
        omega
      simp [insertGroup, groupOf, List.find?, hk, hh]
  | cons e rest ih =>
    by_cases hke : e.1 = h
    · rw [insertGroup, if_pos hke]
      by_cases hk : k = h
      · simp [groupOf, List.find?_cons, hke, hk]
      · have : ¬(e.1 == k) = true := by simp [hke]; omega
        simp only [groupOf, List.find?_cons]
        simp only [this, Bool.false_eq_true, if_false, cond_false]
        rw [if_neg hk]
    · rw [insertGroup, if_neg hke]
      by_cases hek : e.1 = k
      · have hk : ¬(k = h) := by omega
        simp [groupOf, List.find?_cons, hek, hk]
      · have : ¬(e.1 == k) = true := by simp [hek]
        simp only [groupOf, List.find?_cons]
        simp only [this, Bool.false_eq_true, cond_false]
        exact ih

/-- Helper for C6: `insertGroup` never creates an empty group. -/
theorem insertGroup_ne_nil (acc : List (Int × List String)) (h : Int)
    (c : String) (hacc : ∀ g ∈ acc, g.2 ≠ []) :
    ∀ g ∈ insertGroup acc h c, g.2 ≠ [] := by
  induction acc with
  | nil =>
    intro g hg
    rw [insertGroup] at hg
    rcases List.mem_singleton.mp hg with rfl
    simp
  | cons e rest ih =>
    intro g hg
    rw [insertGroup] at hg
    by_cases hke : e.1 = h
    · rw [if_pos hke] at hg
      rcases List.mem_cons.mp hg with rfl | hg

      · simp
      · exact hacc g (List.mem_cons_of_mem _ hg)
    · rw [if_neg hke] at hg
      rcases List.mem_cons.mp hg with rfl | hg
      · exact hacc _ (List.mem_cons_self _ _)
      · exact ih (fun g' hg' => hacc g' (List.mem_cons_of_mem _ hg')) g hg

/-- Helper for C6: every key of `insertGroup acc h c` is a key of
`acc` or `h` itself. -/
theorem keys_insertGroup_subset (acc : List (Int × List String)) (h : Int)
    (c : String) :
    ∀ k ∈ (insertGroup acc h c).map Prod.fst,
      k ∈ acc.map Prod.fst ∨ k = h := by
  induction acc with
  | nil =>
    intro k hk
    rw [insertGroup] at hk
    simp at hk
    exact Or.inr hk
  | cons e rest ih =>
    intro k hk
    rw [insertGroup] at hk
    by_cases hke : e.1 = h
    · rw [if_pos hke] at hk
      simp only [List.map_cons, List.mem_cons] at hk ⊢
      rcases hk with hk | hk
      · exact Or.inl (Or.inl hk)
      · exact Or.inl (Or.inr hk)
    · rw [if_neg hke] at hk
      simp only [List.map_cons, List.mem_cons] at hk ⊢
      rcases hk with hk | hk
      · exact Or.inl (Or.inl hk)
      · rcases ih k hk with hk' | hk'
        · exact Or.inl (Or.inr hk')
        · exact Or.inr hk'

/-- Helper for C6: `insertGroup` keeps the keys distinct. -/
theorem insertGroup_keys_nodup (acc : List (Int × List String)) (h : Int)
    (c : String) (hnd : (acc.map Prod.fst).Nodup) :
    ((insertGroup acc h c).map Prod.fst).Nodup := by
  induction acc with
  | nil => simp [insertGroup]
  | cons e rest ih =>
    rw [insertGroup]
    rw [List.map_cons, List.nodup_cons] at hnd
    by_cases hke : e.1 = h
    · rw [if_pos hke]
      rw [List.map_cons, List.nodup_cons]
      exact hnd
    · rw [if_neg hke]
      rw [List.map_cons, List.nodup_cons]
      refine ⟨?_, ih hnd.2⟩
      intro habs
      rcases keys_insertGroup_subset rest h c e.1 habs with h' | h'
      · exact hnd.1 h'
      · exact hke h'

/-- Helper for C6: with distinct keys, the lookup of a member's key
answers that member. -/
theorem find?_eq_of_mem_nodup (acc : List (Int × List String))
    (hnd : (acc.map Prod.fst).Nodup) (g : Int × List String) (hg : g ∈ acc) :
    acc.find? (fun e => e.1 == g.1) = some g := by
  induction acc with
  | nil => exact absurd hg (List.not_mem_nil _)
  | cons e rest ih =>
    rw [List.map_cons, List.nodup_cons] at hnd
    rcases List.mem_cons.mp hg with rfl | hg'
    · simp [List.find?_cons]
    · have hne : ¬(e.1 == g.1) = true := by
        simp only [beq_iff_eq]
        intro habs
        exact hnd.1 (habs ▸ List.mem_map_of_mem Prod.fst hg')
      simp only [List.find?_cons, hne, Bool.false_eq_true, cond_false]
      exact ih hnd.2 hg'

/-- Helper for C6: a nonempty lookup result is itself an entry. -/
theorem groupOf_mem (acc : List (Int × List String)) (k : Int)
    (hne : groupOf acc k ≠ []) : (k, groupOf acc k) ∈ acc := by
  rw [groupOf] at hne ⊢
  rcases hf : acc.find? (fun e => e.1 == k) with _ | g
  · rw [hf] at hne
    exact absurd rfl hne
  · rw [hf]
    have h1 : (g.1 == k) = true := by simpa using List.find?_some hf
    have h2 : g ∈ acc := List.mem_of_find?_eq_some hf
    have h3 : g.1 = k := by simpa using h1
    have : (k, g.2) = g := by
      rw [← h3]
    exact this ▸ h2

/-- Helper for C6: the group lookup after the whole fold is the name
list of the enabled rows of that hierarchy, appended to the
accumulator's group. -/
theorem foldl_stepRow_groupOf (rows : List (String × Int × Int × Int)) :
    ∀ (acc : List (Int × List String)) (k : Int),
      groupOf (rows.foldl stepRow acc) k =
        groupOf acc k ++
          ((enabledRowsOf rows).filter (fun r => r.2 == k)).map Prod.fst := by
  induction rows with
  | nil => simp [enabledRowsOf]
  | cons r rs ih =>
    intro acc k
    rw [List.foldl_cons]
    by_cases he : r.2.2.2 = 1
    · have hrows : enabledRowsOf (r :: rs) =
          (r.1, r.2.1) :: enabledRowsOf rs := by
        simp [enabledRowsOf, he]
      rw [hrows, ih (stepRow acc r) k, stepRow, if_pos he,
        groupOf_insertGroup]
      by_cases hk : k = r.2.1
      · subst hk
        simp [List.filter_cons]
      · have hb : ((r.1, r.2.1).2 == k) = false := by
          simp only [beq_eq_false_iff_ne, ne_eq]
          omega
        simp [List.filter_cons, hb, hk]
    · have hrows : enabledRowsOf (r :: rs) = enabledRowsOf rs := by
        simp [enabledRowsOf, he]
      rw [hrows, ih (stepRow acc r) k, stepRow, if_neg he]

/-- Helper for C6: the fold never creates an empty group. -/
theorem foldl_stepRow_ne_nil (rows : List (String × Int × Int × Int))
    (acc : List (Int × List String)) (hacc : ∀ g ∈ acc, g.2 ≠ []) :
    ∀ g ∈ rows.foldl stepRow acc, g.2 ≠ [] := by
  induction rows generalizing acc with
  | nil => exact hacc
  | cons r rs ih =>
    rw [List.foldl_cons]
    refine ih (stepRow acc r) ?_
    rw [stepRow]
    by_cases he : r.2.2.2 = 1
    · rw [if_pos he]
      exact insertGroup_ne_nil acc r.2.1 r.1 hacc
    · rw [if_neg he]
      exact hacc

/-- Helper for C6: the fold keeps the keys distinct. -/
theorem foldl_stepRow_keys_nodup (rows : List (String × Int × Int × Int))
    (acc : List (Int × List String)) (hnd : (acc.map Prod.fst).Nodup) :
    (((rows.foldl stepRow acc)).map Prod.fst).Nodup := by
  induction rows generalizing acc with
  | nil => exact hnd
  | cons r rs ih =>
    rw [List.foldl_cons]
    refine ih (stepRow acc r) ?_
    rw [stepRow]
    by_cases he : r.2.2.2 = 1
    · rw [if_pos he]
      exact insertGroup_keys_nodup acc r.2.1 r.1 hnd
    · rw [if_neg he]
      exact hnd

/-- Helper for C6: membership in the filtered name list is membership
of the (name, hierarchy) row. -/
theorem mem_filter_names (l : List (String × Int)) (c : String) (k : Int) :
    (c ∈ (l.filter (fun r => r.2 == k)).map Prod.fst ↔ (c, k) ∈ l) := by
  rw [List.mem_map]
  constructor
  · rintro ⟨r, hr, rfl⟩
    rw [List.mem_filter] at hr
    have : r.2 = k := by simpa using hr.2
    exact (Prod.mk.eta (p := r)) ▸ (this ▸ hr.1)
  · intro hmem
    refine ⟨(c, k), List.mem_filter.mpr ⟨hmem, by simp⟩, rfl⟩

/-- C6: on `/proc/cgroups` input whose enabled rows carry pairwise
distinct controller names (as the kernel guarantees), the legacy
inventory parse includes exactly the rows whose enabled field is 1,
grouped by hierarchy id — the group of each hierarchy id is precisely
the name list of the enabled rows carrying that id, no group of the
result is empty — and each enabled controller name appears in exactly
one group of the result. -/
theorem parseLegacyCgroups_spec (lines : List String)
    (hnd : ((enabledRows lines).map Prod.fst).Nodup) :
    (∀ k : Int, groupOf (parseLegacyCgroups lines) k =
      ((enabledRows lines).filter (fun r => r.2 == k)).map Prod.fst) ∧
    (∀ g ∈ parseLegacyCgroups lines, g.2 ≠ []) ∧
    (∀ c ∈ (enabledRows lines).map Prod.fst,
      ∃! g, g ∈ parseLegacyCgroups lines ∧ c ∈ g.2) := by
  have hgrp : ∀ k : Int, groupOf (parseLegacyCgroups lines) k =
      ((enabledRows lines).filter (fun r => r.2 == k)).map Prod.fst := by
    intro k
    rw [parseLegacyCgroups_eq_foldl, foldl_stepRow_groupOf, enabledRows]
    rfl
  have hnenil : ∀ g ∈ parseLegacyCgroups lines, g.2 ≠ [] := by
    rw [parseLegacyCgroups_eq_foldl]
    exact foldl_stepRow_ne_nil _ [] (by simp)
  have hkeys : ((parseLegacyCgroups lines).map Prod.fst).Nodup := by
    rw [parseLegacyCgroups_eq_foldl]
    exact foldl_stepRow_keys_nodup _ [] (by simp)
  refine ⟨hgrp, hnenil, ?_⟩
  intro c hc
  rcases List.mem_map.mp hc with ⟨r, hr, hrc⟩
  have hrow : (c, r.2) ∈ enabledRows lines := by
    have : r = (c, r.2) := by
      rw [← hrc]
    exact this ▸ hr
  have hcf : c ∈ groupOf (parseLegacyCgroups lines) r.2 := by
    rw [hgrp]
    exact (mem_filter_names _ c r.2).mpr hrow
  have hne : groupOf (parseLegacyCgroups lines) r.2 ≠ [] := by
    intro habs
    rw [habs] at hcf
    exact List.not_mem_nil _ hcf
  have hmem : (r.2, groupOf (parseLegacyCgroups lines) r.2) ∈
      parseLegacyCgroups lines := groupOf_mem _ _ hne
  refine ⟨(r.2, groupOf (parseLegacyCgroups lines) r.2), ⟨hmem, hcf⟩, ?_⟩
  rintro ⟨k', cs'⟩ ⟨hmem', hc'⟩
  have hlook : (parseLegacyCgroups lines).find?
      (fun e => e.1 == k') = some (k', cs') :=
    find?_eq_of_mem_nodup _ hkeys _ hmem'
  have hcs' : cs' = groupOf (parseLegacyCgroups lines) k' := by
    rw [groupOf, hlook]
  have hrow' : (c, k') ∈ enabledRows lines := by
    refine (mem_filter_names _ c k').mp ?_
    rw [← hgrp, ← hcs']
    exact hc'
  have hkk : k' = r.2 := by
    have := List.inj_on_of_nodup_map hnd hrow' hrow rfl
    exact congrArg Prod.snd this
  rw [Prod.mk.injEq]
  exact ⟨hkk, by rw [hcs', hkk]⟩

/-- C6, witness: a concrete `/proc/cgroups` fixture with distinct
enabled controller names, grouped into hierarchies 2 and 3, with the
disabled `memory` row excluded. -/
theorem parseLegacyCgroups_spec_witness :
    ((enabledRows ["#subsys_name hierarchy num_cgroups enabled",
      "cpuset 2 4 1", "cpu 3 4 1", "cpuacct 3 4 1",
      "memory 4 4 0"]).map Prod.fst).Nodup ∧
    ((∀ k : Int, groupOf (parseLegacyCgroups
        ["#subsys_name hierarchy num_cgroups enabled",
         "cpuset 2 4 1", "cpu 3 4 1", "cpuacct 3 4 1", "memory 4 4 0"]) k =
      (((enabledRows ["#subsys_name hierarchy num_cgroups enabled",
         "cpuset 2 4 1", "cpu 3 4 1", "cpuacct 3 4 1",
         "memory 4 4 0"]).filter (fun r => r.2 == k)).map Prod.fst)) ∧
    (∀ g ∈ parseLegacyCgroups ["#subsys_name hierarchy num_cgroups enabled",
        "cpuset 2 4 1", "cpu 3 4 1", "cpuacct 3 4 1", "memory 4 4 0"],
      g.2 ≠ []) ∧
    (∀ c ∈ (enabledRows ["#subsys_name hierarchy num_cgroups enabled",
        "cpuset 2 4 1", "cpu 3 4 1", "cpuacct 3 4 1",
        "memory 4 4 0"]).map Prod.fst,
      ∃! g, g ∈ parseLegacyCgroups
          ["#subsys_name hierarchy num_cgroups enabled",
           "cpuset 2 4 1", "cpu 3 4 1", "cpuacct 3 4 1", "memory 4 4 0"] ∧
        c ∈ g.2)) :=
  ⟨by decide,
   parseLegacyCgroups_spec ["#subsys_name hierarchy num_cgroups enabled",
     "cpuset 2 4 1", "cpu 3 4 1", "cpuacct 3 4 1", "memory 4 4 0"]
     (by decide)⟩

/-- Helper for C1: cancelling equal slash-free heads of a path. -/
theorem noslash_cons_append_inj (c₁ : List Char) :
    ∀ (c₂ r₁ r₂ : List Char), '/' ∉ c₁ → '/' ∉ c₂ →
      c₁ ++ '/' :: r₁ = c₂ ++ '/' :: r₂ → c₁ = c₂ := by
  induction c₁ with
  | nil =>
    intro c₂ r₁ r₂ _ h₂ heq
    cases c₂ with
    | nil => rfl
    | cons x c₂' =>
      rw [List.nil_append, List.cons_append] at heq
      injection heq with hx _
      exact absurd (hx ▸ List.mem_cons_self x c₂') h₂
  | cons a c₁' ih =>
    intro c₂ r₁ r₂ h₁ h₂ heq
    cases c₂ with
    | nil =>
      rw [List.cons_append, List.nil_append] at heq
      injection heq with hx _
      exact absurd (hx ▸ List.mem_cons_self a c₁') h₁
    | cons x c₂' =>
      rw [List.cons_append, List.cons_append] at heq
      injection heq with hx htail
      rw [hx, ih c₂' r₁ r₂ (fun hm => h₁ (List.mem_cons_of_mem _ hm))
        (fun hm => h₂ (List.mem_cons_of_mem _ hm)) htail]

/-- Helper for C1: a slash-free component does not start with a
slash. -/
theorem slashFree_head (s : String) (h : slashFree s) :
    s.data.head? ≠ some '/' := by
  intro habs
  cases hd : s.data with
  | nil => rw [hd] at habs; exact absurd habs (by simp)
  | cons x r =>
    rw [hd] at habs
    have hx : x = '/' := by simpa using habs
    exact h (hd ▸ (hx ▸ List.mem_cons_self x r))

/-- Helper for C1: the joined path when the second component brings no
slash. -/
theorem goJoin_data_no_slash (a b : String) (hb : b.data.head? ≠ some '/') :
    (goJoin a b).data = a.data ++ '/' :: b.data := by
  rw [goJoin, if_neg hb, String.data_append, String.data_append,
    List.append_assoc]
  rfl

/-- Helper for C1: a join always separates its components with a
slash boundary. -/
theorem goJoin_exists_tail (a b : String) :
    ∃ u, (goJoin a b).data = a.data ++ '/' :: u := by
  by_cases hb : b.data.head? = some '/'
  · cases hd : b.data with
    | nil => rw [hd] at hb; exact absurd hb (by simp)
    | cons x r =>
      refine ⟨r, ?_⟩
      rw [goJoin, if_pos hb, String.data_append, hd]
      have hx : x = '/' := by rw [hd] at hb; simpa using hb
      rw [hx]
  · exact ⟨b.data, goJoin_data_no_slash a b hb⟩

/-- Helper for C1: the controller mount-point path in separated form. -/
theorem cPathOf_data (root c : String) (hc : slashFree c) :
    (cPathOf root c).data =
      (goJoin root "/sys/fs/cgroup").data ++ '/' :: c.data :=
  goJoin_data_no_slash _ _ (slashFree_head c hc)

/-- Helper for C1: distinct slash-free controller directory names have
distinct mount-point paths. -/
theorem cPathOf_inj (root c₁ c₂ : String) (h₁ : slashFree c₁)
    (h₂ : slashFree c₂) (heq : cPathOf root c₁ = cPathOf root c₂) :
    c₁ = c₂ := by
  have hd := congrArg String.data heq
  rw [cPathOf_data _ _ h₁, cPathOf_data _ _ h₂] at hd
  have hd' := List.append_cancel_left hd
  injection hd' with hhead htail
  exact String.ext htail

/-- Helper for C1: a whitelist-file bind path in separated form. -/
theorem bindPathOf_data (root sub c svc f : String) (hc : slashFree c) :
    ∃ τ, (bindPathOf root sub c svc f).data =
      (goJoin root "/sys/fs/cgroup").data ++ '/' :: (c.data ++ '/' :: τ) := by
  obtain ⟨u₁, h₁⟩ := goJoin_exists_tail (cPathOf root c) sub
  obtain ⟨u₂, h₂⟩ :=
    goJoin_exists_tail (goJoin (cPathOf root c) sub) "system.slice"
  obtain ⟨u₃, h₃⟩ := goJoin_exists_tail
    (goJoin (goJoin (cPathOf root c) sub) "system.slice") svc
  obtain ⟨u₄, h₄⟩ := goJoin_exists_tail
    (goJoin (goJoin (goJoin (cPathOf root c) sub) "system.slice") svc) f
  refine ⟨u₁ ++ '/' :: u₂ ++ '/' :: u₃ ++ '/' :: u₄, ?_⟩
  rw [bindPathOf, appCgroupOf, h₄, h₃, h₂, h₁, cPathOf_data root c hc]
  simp [List.append_assoc]

/-- Helper for C1: a whitelist bind path determines its slash-free
controller directory name. -/
theorem bindPathOf_inj_controller (root sub c₁ c₂ svc₁ svc₂ f₁ f₂ : String)
    (h₁ : slashFree c₁) (h₂ : slashFree c₂)
    (heq : bindPathOf root sub c₁ svc₁ f₁ = bindPathOf root sub c₂ svc₂ f₂) :
    c₁ = c₂ := by
  obtain ⟨τ₁, e₁⟩ := bindPathOf_data root sub c₁ svc₁ f₁ h₁
  obtain ⟨τ₂, e₂⟩ := bindPathOf_data root sub c₂ svc₂ f₂ h₂
  have hd := congrArg String.data heq
  rw [e₁, e₂] at hd
  have hd' := List.append_cancel_left hd
  injection hd' with hhead htail
  exact String.ext (noslash_cons_append_inj _ _ _ _ h₁ h₂ htail)

/-- Helper for C1: a read-only remount operation is never a plain bind
operation (their flag sets differ). -/
theorem roOp_ne_bindOp (p q : String) : roOp p ≠ bindOp q := by
  intro h
  rw [roOp, bindOp] at h
  injection h with h₁ h₂ h₃ h₄ h₅
  exact absurd h₄ (by decide)

/-- Helper for C1: membership in a sequenced trace. -/
theorem mem_andThen (r : R) (k : Unit → R) (op : Op)
    (h : op ∈ (andThen r k).1) : op ∈ r.1 ∨ op ∈ (k ()).1 := by
  rcases hr : r.2 with _ | e
  · rw [andThen, hr] at h
    exact List.mem_append.mp h
  · rw [andThen, hr] at h
    exact Or.inl h

/-- Helper for C1: every operation of the file loop is a whitelist
self bind-mount of one of the files. -/
theorem bindFilesLoop_ops (env : Env) (appC : String) (files : List String)
    (op : Op) (h : op ∈ (bindFilesLoop env appC files).1) :
    ∃ f ∈ files, op = bindOp (goJoin appC f) := by
  induction files with
  | nil => exact absurd h (by simp [bindFilesLoop, skip])
  | cons f fs ih =>
    rw [bindFilesLoop] at h
    by_cases hs : env.statNotExist (goJoin appC f)
    · rw [if_pos hs] at h
      obtain ⟨g, hg, hop⟩ := ih h
      exact ⟨g, List.mem_cons_of_mem _ hg, hop⟩
    · rw [if_neg hs] at h
      rcases mem_andThen _ _ _ h with h' | h'
      · rw [mountStep] at h'
        rw [List.mem_singleton.mp h']
        exact ⟨f, List.mem_cons_self _ _, rfl⟩
      · obtain ⟨g, hg, hop⟩ := ih h'
        exact ⟨g, List.mem_cons_of_mem _ hg, hop⟩

/-- Helper for C1: every operation of the service loop is a directory
creation or a whitelist self bind-mount for one of the services. -/
theorem servicesLoop_ops (env : Env) (root sub c : String)
    (svcs : List String) (op : Op)
    (h : op ∈ (servicesLoop env root sub c svcs).1) :
    ∃ svc ∈ svcs, (op = Op.mkdir (appCgroupOf root sub c svc) 0o755 ∨
      ∃ f ∈ getLegacyControllerRWFiles c,
        op = bindOp (bindPathOf root sub c svc f)) := by
  induction svcs with
  | nil => exact absurd h (by simp [servicesLoop, skip])
  | cons svc rest ih =>
    rw [servicesLoop] at h
    rcases mem_andThen _ _ _ h with h' | h'
    · rw [mkdirStep] at h'
      rw [List.mem_singleton.mp h']
      exact ⟨svc, List.mem_cons_self _ _, Or.inl rfl⟩
    · rcases mem_andThen _ _ _ h' with h'' | h''
      · obtain ⟨f, hf, hop⟩ := bindFilesLoop_ops _ _ _ _ h''
        exact ⟨svc, List.mem_cons_self _ _, Or.inr ⟨f, hf, hop⟩⟩
      · obtain ⟨svc', hsvc', hrest⟩ := ih h''
        exact ⟨svc', List.mem_cons_of_mem _ hsvc', hrest⟩

/-- Helper for C1: the operations before a controller's read-only
remount are the cpuset workaround, directory creations and whitelist
self bind-mounts. -/
theorem controllerInner_ops (env : Env) (root sub : String)
    (svcs : List String) (c : String) (op : Op)
    (h : op ∈ (controllerInner env root sub svcs c).1) :
    op = Op.fixCpuset (cPathOf root c) ∨
    (∃ svc ∈ svcs, op = Op.mkdir (appCgroupOf root sub c svc) 0o755) ∨
    isWhitelistBind root sub svcs c op := by
  rw [controllerInner] at h
  rcases mem_andThen _ _ _ h with h' | h'
  · by_cases hcp : c = "cpuset"
    · rw [if_pos hcp] at h'
      exact Or.inl (List.mem_singleton.mp h')
    · rw [if_neg hcp] at h'
      exact absurd h' (by simp [skip])
  · obtain ⟨svc, hsvc, hop | hop⟩ := servicesLoop_ops _ _ _ _ _ _ h'
    · exact Or.inr (Or.inl ⟨svc, hsvc, hop⟩)
    · obtain ⟨f, hf, hop⟩ := hop
      exact Or.inr (Or.inr ⟨svc, hsvc, f, hf, hop⟩)

/-- Helper for C1: no read-only remount operation occurs before a
controller's own read-only remount. -/
theorem controllerInner_no_ro (env : Env) (root sub : String)
    (svcs : List String) (c : String) (p : String) :
    roOp p ∉ (controllerInner env root sub svcs c).1 := by
  intro h
  rcases controllerInner_ops env root sub svcs c _ h with h | h | h
  · exact absurd h (by simp [roOp])
  · obtain ⟨svc, _, h⟩ := h
    exact absurd h (by simp [roOp])
  · obtain ⟨svc, _, f, _, h⟩ := h
    exact roOp_ne_bindOp _ _ h

/-- Helper for C1: a controller's trace is its preparatory operations
followed, when they succeeded, by the read-only remount of the
controller's mount point. -/
theorem controllerStep_trace (env : Env) (root sub : String)
    (svcs : List String) (c : String) :
    (controllerStep env root sub svcs c).1 =
      (controllerInner env root sub svcs c).1 ++
        (match (controllerInner env root sub svcs c).2 with
          | none => [roOp (cPathOf root c)]
          | some _ => []) := by
  rw [controllerStep]
  rcases hi : (controllerInner env root sub svcs c).2 with _ | e
  · rw [andThen, hi]
    rfl
  · rw [andThen, hi]
    simp

/-- Helper for C1: every operation of a controller's trace is a
preparatory operation or the controller's own read-only remount. -/
theorem controllerStep_ops (env : Env) (root sub : String)
    (svcs : List String) (c : String) (op : Op)
    (h : op ∈ (controllerStep env root sub svcs c).1) :
    op ∈ (controllerInner env root sub svcs c).1 ∨
      op = roOp (cPathOf root c) := by
  rw [controllerStep_trace] at h
  rcases List.mem_append.mp h with h' | h'
  · exact Or.inl h'
  · rcases hi : (controllerInner env root sub svcs c).2 with _ | e
    · rw [hi] at h'
      exact Or.inr (List.mem_singleton.mp h')
    · rw [hi] at h'
      exact absurd h' (by simp)

/-- Helper for C1: the read-only remount of a slash-free controller's
mount point occurs only in that controller's own trace segment. -/
theorem controllerStep_ro (env : Env) (root sub : String)
    (svcs : List String) (c c' : String) (hc : slashFree c)
    (hc' : slashFree c')
    (h : roOp (cPathOf root c) ∈ (controllerStep env root sub svcs c').1) :
    c = c' := by
  rcases controllerStep_ops env root sub svcs c' _ h with h' | h'
  · exact absurd h' (controllerInner_no_ro env root sub svcs c' _)
  · rw [roOp, roOp] at h'
    injection h' with h₁ h₂ h₃ h₄ h₅
    exact cPathOf_inj root c c' hc hc' h₁

/-- Helper for C1: a whitelist bind-mount for a slash-free controller
occurs only in that controller's own trace segment. -/
theorem controllerStep_wb (env : Env) (root sub : String)
    (svcs : List String) (c c' : String) (hc : slashFree c)
    (hc' : slashFree c') (op : Op)
    (hwb : isWhitelistBind root sub svcs c op)
    (h : op ∈ (controllerStep env root sub svcs c').1) :
    c = c' := by
  obtain ⟨svc, hsvc, f, hf, rfl⟩ := hwb
  rcases controllerStep_ops env root sub svcs c' _ h with h' | h'
  · rcases controllerInner_ops env root sub svcs c' _ h' with h'' | h'' | h''
    · exact absurd h'' (by simp [bindOp])
    · obtain ⟨svc', _, h''⟩ := h''
      exact absurd h'' (by simp [bindOp])
    · obtain ⟨svc', _, f', _, h''⟩ := h''
      rw [bindOp, bindOp] at h''
      injection h'' with h₁ h₂ h₃ h₄ h₅
      exact bindPathOf_inj_controller root sub c c' svc svc' f f' hc hc' h₁
  · exact absurd h'.symm (roOp_ne_bindOp _ _)

/-- Helper for C1: every operation of the controller loop belongs to
the trace segment of one of the controllers. -/
theorem controllersLoop_ops (env : Env) (root sub : String)
    (svcs : List String) (cs : List String) (op : Op)
    (h : op ∈ (controllersLoop env root sub svcs cs).1) :
    ∃ c' ∈ cs, op ∈ (controllerStep env root sub svcs c').1 := by
  induction cs with
  | nil => exact absurd h (by simp [controllersLoop, skip])
  | cons c₀ rest ih =>
    rw [controllersLoop] at h
    rcases mem_andThen _ _ _ h with h' | h'
    · exact ⟨c₀, List.mem_cons_self _ _, h'⟩
    · obtain ⟨c', hc', hmem⟩ := ih h'
      exact ⟨c', List.mem_cons_of_mem _ hc', hmem⟩

/-- Helper for C1: the ordering property is vacuous when the read-only
remount does not occur. -/
theorem noBindAfterRO_of_not_mem (root sub : String) (svcs : List String)
    (c : String) (t : List Op) (h : roOp (cPathOf root c) ∉ t) :
    noBindAfterRO root sub svcs c t := by
  intro t₁ t₂ heq op hop hwb
  refine h ?_
  rw [heq]
  exact List.mem_append.mpr (Or.inr (List.mem_cons_self _ _))

/-- Helper for C1: the ordering property holds of any one-operation
trace. -/
theorem noBindAfterRO_singleton (root sub : String) (svcs : List String)
    (c : String) (x : Op) : noBindAfterRO root sub svcs c [x] := by
  intro t₁ t₂ heq op hop hwb
  have hlen := congrArg List.length heq
  simp only [List.length_nil, List.length_singleton, List.length_append, List.length_cons]
    at hlen
  have ht₂ : t₂ = [] := List.eq_nil_of_length_eq_zero (by omega)
  rw [ht₂] at hop
  exact absurd hop (List.not_mem_nil _)

/-- Helper for C1: appending one operation after a block free of the
controller's read-only remount keeps the ordering property. -/
theorem noBindAfterRO_snoc (root sub : String) (svcs : List String)
    (c : String) (body : List Op) (x : Op)
    (h : roOp (cPathOf root c) ∉ body) :
    noBindAfterRO root sub svcs c (body ++ [x]) := by
  intro t₁ t₂ heq op hop hwb
  rcases List.append_eq_append_iff.mp heq.symm with ⟨a', ha1, ha2⟩ |
    ⟨c', hc1, hc2⟩
  · cases a' with
    | nil =>
      rw [List.nil_append] at ha2
      injection ha2 with hro ht₂
      rw [ht₂] at hop
      exact absurd hop (List.not_mem_nil _)
    | cons y a'' =>
      rw [List.cons_append] at ha2
      injection ha2 with hy htail
      refine h ?_
      rw [ha1, hy]
      exact List.mem_append.mpr (Or.inr (List.mem_cons_self _ _))
  · have hlen := congrArg List.length hc2
    simp only [List.length_nil, List.length_singleton, List.length_append,
      List.length_cons] at hlen
    have ht₂ : t₂ = [] := List.eq_nil_of_length_eq_zero (by omega)
    rw [ht₂] at hop
    exact absurd hop (List.not_mem_nil _)

/-- Helper for C1: composing the ordering property over a trace
concatenation. -/
theorem noBindAfterRO_append (root sub : String) (svcs : List String)
    (c : String) (A B : List Op) (hA : noBindAfterRO root sub svcs c A)
    (hB : noBindAfterRO root sub svcs c B)
    (hside : roOp (cPathOf root c) ∉ A ∨
      ∀ op ∈ B, ¬isWhitelistBind root sub svcs c op) :
    noBindAfterRO root sub svcs c (A ++ B) := by
  intro t₁ t₂ heq op hop hwb
  rcases List.append_eq_append_iff.mp heq.symm with ⟨a', ha1, ha2⟩ |
    ⟨c', hc1, hc2⟩
  · cases a' with
    | nil =>
      rw [List.nil_append] at ha2
      refine hB [] t₂ ?_ op hop hwb
      rw [List.nil_append]
      exact ha2.symm
    | cons y a'' =>
      rw [List.cons_append] at ha2
      injection ha2 with hy htail
      rw [htail] at hop
      rcases List.mem_append.mp hop with hop' | hop'
      · refine hA t₁ a'' ?_ op hop' hwb
        rw [ha1, hy]
      · rcases hside with hside | hside
        · refine absurd ?_ hside
          rw [ha1, hy]
          exact List.mem_append.mpr (Or.inr (List.mem_cons_self _ _))
        · exact hside op hop' hwb
  · exact hB c' t₂ hc2 op hop hwb

/-- Helper for C1: the ordering property holds of one controller's own
trace segment, for every target controller. -/
theorem controllerStep_noBind (env : Env) (root sub : String)
    (svcs : List String) (c c₀ : String) :
    noBindAfterRO root sub svcs c (controllerStep env root sub svcs c₀).1 := by
  rw [controllerStep_trace]
  rcases hi : (controllerInner env root sub svcs c₀).2 with _ | e
  · exact noBindAfterRO_snoc root sub svcs c _ _
      (controllerInner_no_ro env root sub svcs c₀ _)
  · rw [List.append_nil]
    exact noBindAfterRO_of_not_mem root sub svcs c _
      (controllerInner_no_ro env root sub svcs c₀ _)

/-- Helper for C1: the read-only remount of a slash-free controller
never occurs in the segment of a different slash-free controller. -/
theorem controllerStep_ro_not_mem (env : Env) (root sub : String)
    (svcs : List String) (c c₀ : String) (hc : slashFree c)
    (hc₀ : slashFree c₀) (hne : c ≠ c₀) :
    roOp (cPathOf root c) ∉ (controllerStep env root sub svcs c₀).1 := by
  intro habs
  exact hne (controllerStep_ro env root sub svcs c c₀ hc hc₀ habs)

/-- Helper for C1: the ordering property holds for every controller of
the loop over a duplicate-free, slash-free controller list. -/
theorem controllersLoop_noBind (env : Env) (root sub : String)
    (svcs : List String) (cs : List String) (hnd : cs.Nodup)
    (hsf : ∀ c' ∈ cs, slashFree c') (c : String) (hc : c ∈ cs) :
    noBindAfterRO root sub svcs c (controllersLoop env root sub svcs cs).1 := by
  induction cs with
  | nil => exact absurd hc (List.not_mem_nil _)
  | cons c₀ rest ih =>
    rw [controllersLoop]
    have hnd' := List.nodup_cons.mp hnd
    rcases hs : (controllerStep env root sub svcs c₀).2 with _ | e
    · rw [andThen, hs]
      rcases List.mem_cons.mp hc with hceq | hcrest
      · refine noBindAfterRO_append root sub svcs c _ _
          (controllerStep_noBind env root sub svcs c c₀) ?_ (Or.inr ?_)
        · refine noBindAfterRO_of_not_mem root sub svcs c _ ?_
          intro habs
          obtain ⟨c', hc', hmem⟩ := controllersLoop_ops env root sub svcs
            rest _ habs
          have heq2 : c = c' := controllerStep_ro env root sub svcs c c'
            (hsf c hc) (hsf c' (List.mem_cons_of_mem _ hc')) hmem
          refine hnd'.1 ?_
          rw [← hceq, heq2]
          exact hc'
        · intro op hop hwb
          obtain ⟨c', hc', hmem⟩ := controllersLoop_ops env root sub svcs
            rest _ hop
          have heq2 : c = c' := controllerStep_wb env root sub svcs c c'
            (hsf c hc) (hsf c' (List.mem_cons_of_mem _ hc')) op hwb hmem
          refine hnd'.1 ?_
          rw [← hceq, heq2]
          exact hc'
      · have hcne : c ≠ c₀ := by
          intro habs
          exact hnd'.1 (habs ▸ hcrest)
        refine noBindAfterRO_append root sub svcs c _ _
          (controllerStep_noBind env root sub svcs c c₀)
          (ih hnd'.2 (fun c' h' => hsf c' (List.mem_cons_of_mem _ h'))
            hcrest)
          (Or.inl (controllerStep_ro_not_mem env root sub svcs c c₀
            (hsf c hc) (hsf c₀ (List.mem_cons_self _ _)) hcne))
    · rw [andThen, hs]
      exact controllerStep_noBind env root sub svcs c c₀

/-- Helper for C1: when the controller loop succeeds, it has remounted
every controller's mount point read-only. -/
theorem controllersLoop_complete (env : Env) (root sub : String)
    (svcs : List String) (cs : List String)
    (herr : (controllersLoop env root sub svcs cs).2 = none) :
    ∀ c ∈ cs, roOp (cPathOf root c) ∈ (controllersLoop env root sub svcs cs).1 := by
  induction cs with
  | nil => intro c hc; exact absurd hc (List.not_mem_nil _)
  | cons c₀ rest ih =>
    intro c hc
    rw [controllersLoop] at herr ⊢
    rcases hs : (controllerStep env root sub svcs c₀).2 with _ | e
    · rw [andThen, hs] at herr ⊢
      rcases List.mem_cons.mp hc with hceq | hcrest
      · refine List.mem_append.mpr (Or.inl ?_)
        rcases hi : (controllerInner env root sub svcs c₀).2 with _ | e'
        · rw [hceq, controllerStep_trace, hi]
          exact List.mem_append.mpr (Or.inr (List.mem_singleton.mpr rfl))
        · rw [controllerStep, andThen, hi] at hs
          exact absurd hs (by simp)
      · exact List.mem_append.mpr (Or.inr (ih herr c hcrest))
    · rw [andThen, hs] at herr
      exact absurd herr (by simp)

/-- C1: over any duplicate-free list of slash-free controller
directory names, the legacy lockdown's operation trace never contains
a whitelist-file bind-mount for a controller after that controller's
read-only remount (so every performed bind-mount strictly precedes its
controller's read-only remount), and on success the read-only remount
of `<root>/sys` is the very last operation, performed after every
controller's own read-only remount. -/
theorem RemountLegacyCgroupsRO_ordering (env : Env) (root : String)
    (enabledCgroups : List (Int × List String)) (subcgroup : String)
    (serviceNames : List String)
    (hnd : (GetLegacyControllerDirs enabledCgroups).Nodup)
    (hsf : ∀ c ∈ GetLegacyControllerDirs enabledCgroups, slashFree c) :
    (∀ c ∈ GetLegacyControllerDirs enabledCgroups,
      noBindAfterRO root subcgroup serviceNames c
        (RemountLegacyCgroupsRO env root enabledCgroups subcgroup
          serviceNames).1) ∧
    ((RemountLegacyCgroupsRO env root enabledCgroups subcgroup
        serviceNames).2 = none →
      ∃ t', (RemountLegacyCgroupsRO env root enabledCgroups subcgroup
          serviceNames).1 = t' ++ [roOp (goJoin root "/sys")] ∧
        ∀ c ∈ GetLegacyControllerDirs enabledCgroups,
          roOp (cPathOf root c) ∈ t') := by
  constructor
  · intro c hc
    rw [RemountLegacyCgroupsRO]
    rcases hl : (controllersLoop env root subcgroup serviceNames
        (GetLegacyControllerDirs enabledCgroups)).2 with _ | e
    · rw [andThen, hl]
      refine noBindAfterRO_append root subcgroup serviceNames c _ _
        (controllersLoop_noBind env root subcgroup serviceNames _ hnd hsf
          c hc)
        (noBindAfterRO_singleton root subcgroup serviceNames c _) (Or.inr ?_)
      intro op hop hwb
      obtain ⟨svc, _, f, _, heq⟩ := hwb
      rw [List.mem_singleton.mp hop] at heq
      exact roOp_ne_bindOp _ _ heq
    · rw [andThen, hl]
      exact controllersLoop_noBind env root subcgroup serviceNames _ hnd hsf
        c hc
  · intro herr
    rw [RemountLegacyCgroupsRO] at herr ⊢
    rcases hl : (controllersLoop env root subcgroup serviceNames
        (GetLegacyControllerDirs enabledCgroups)).2 with _ | e
    · rw [andThen, hl] at herr ⊢
      exact ⟨_, rfl, controllersLoop_complete env root subcgroup
        serviceNames _ hl⟩
    · rw [andThen, hl] at herr
      exact absurd herr (by simp)

/-- C1, witness: the ordering invariant at a concrete legacy setup
with two hierarchies, a `cpuset` controller (empty whitelist) and two
services, in an all-success environment. -/
theorem RemountLegacyCgroupsRO_ordering_witness :
    (GetLegacyControllerDirs [(1, ["cpu", "cpuacct"]), (2, ["cpuset"]),
      (3, ["memory"])]).Nodup ∧
    (∀ c ∈ GetLegacyControllerDirs [(1, ["cpu", "cpuacct"]), (2, ["cpuset"]),
      (3, ["memory"])], slashFree c) ∧
    ((∀ c ∈ GetLegacyControllerDirs [(1, ["cpu", "cpuacct"]), (2, ["cpuset"]),
        (3, ["memory"])],
      noBindAfterRO "/r" "machine.slice/m.scope" ["app1.service",
          "app2.service"] c
        (RemountLegacyCgroupsRO happyEnv "/r" [(1, ["cpu", "cpuacct"]),
          (2, ["cpuset"]), (3, ["memory"])] "machine.slice/m.scope"
          ["app1.service", "app2.service"]).1) ∧
    ((RemountLegacyCgroupsRO happyEnv "/r" [(1, ["cpu", "cpuacct"]),
        (2, ["cpuset"]), (3, ["memory"])] "machine.slice/m.scope"
        ["app1.service", "app2.service"]).2 = none →
      ∃ t', (RemountLegacyCgroupsRO happyEnv "/r" [(1, ["cpu", "cpuacct"]),
          (2, ["cpuset"]), (3, ["memory"])] "machine.slice/m.scope"
          ["app1.service", "app2.service"]).1 =
          t' ++ [roOp (goJoin "/r" "/sys")] ∧
        ∀ c ∈ GetLegacyControllerDirs [(1, ["cpu", "cpuacct"]),
          (2, ["cpuset"]), (3, ["memory"])],
          roOp (cPathOf "/r" c) ∈ t')) :=
  ⟨by decide, by decide,
   RemountLegacyCgroupsRO_ordering happyEnv "/r" [(1, ["cpu", "cpuacct"]),
     (2, ["cpuset"]), (3, ["memory"])] "machine.slice/m.scope"
     ["app1.service", "app2.service"] (by decide) (by decide)⟩

end RktCgroup
